import Mathlib

/-!
Shallow embedding of `src/AutonomousBusinessModelInnovationFramework.py`
(`BusinessModelInnovationFramework`, the Orchestrator).

Modelling conventions:
* Calendar dates are natural numbers (`Nat`); `today` is passed explicitly
  wherever the source calls `date.today()`.
* The four collaborators (Market Analyzer, Insight Extractor, Competitor
  Tracker, Financial Modeler) are external; they appear as a record of
  functions returning `Except E _`, `E` being the (abstract) error type:
  `Except.error e` models the collaborator raising exception `e`, which the
  orchestrator re-raises unchanged (the Python `try/except ... raise` blocks
  only log before re-raising, so they are semantically the identity on the
  propagated error and are not modelled further).
* Python dicts used as uuid→bool result maps are insertion-ordered
  association lists; `dictInsert` mirrors CPython assignment semantics
  (existing key keeps its position and gets the new value, a new key is
  appended at the end).
* Each orchestrator operation additionally returns the list of collaborator
  calls it issued, in order (a ghost trace, derived line by line from the
  source body), so that "invokes X / never invokes Y" properties are
  statable.
* Opaque payloads that the orchestrator merely forwards (`target_revenue`,
  `revenue_projections`, optimized records, proposal payloads, growth rates)
  are fixed to `Int`/`String` carriers; the orchestrator never computes with
  them.
-/

namespace ABMIF

/-- Output of `MarketAnalyzer.get_current_market_data` (spec §6): the
orchestrator reads only the `growth_rate` field. -/
structure MarketData where
  growth_rate : Int
  deriving Repr, DecidableEq

/-- Output of `CustomerInsightExtractor.extract_insights` (spec §6). -/
structure CustomerInsights where
  pain_points : List String
  deriving Repr, DecidableEq

/-- Output of `MarketAnalyzer.get_cached_data` (spec §6): the orchestrator
reads only `customer_pain_points`. -/
structure CachedTrendData where
  customer_pain_points : List String
  deriving Repr, DecidableEq

/-- The `normalized_data` dict built by `analyze_market_trends`
(source lines 50-53). -/
structure MarketTrendReport where
  market_growth : Int
  customer_pain_points : List String
  deriving Repr, DecidableEq

/-- Output of `CompetitorTracker.get_competitor_intelligence` (spec §6). -/
structure CompetitorData where
  gaps : List String
  recommendations : List String
  deriving Repr, DecidableEq

/-- The `competitive_analysis` dict built by `track_competition`
(source lines 154-157). -/
structure CompetitiveAnalysis where
  key_opportunity : String
  differentiation_strategy : String
  deriving Repr, DecidableEq

/-- A proposal record returned by `FinancialModeler.create_models`; the
orchestrator passes it through unmodified, so its payload is opaque. -/
structure Proposal where
  uuid : String
  payload : Int
  deriving Repr, DecidableEq

/-- An input item of `validate_models` / `optimize_models`: `model['uuid']`
is a mandatory key, `model.get('market_segment')` and
`model.get('revenue_projections')` are optional (source lines 103-106,
127-130). -/
structure ModelRef where
  uuid : String
  market_segment : Option String
  revenue_projections : Option Int
  deriving Repr, DecidableEq

/-- The orchestrator's own mutable state (source lines 36-37):
`_last_analysis_date : Optional[date]` and
`_models_validated_last_week : int`. -/
structure OrchState where
  last_analysis_date : Option Nat
  models_validated_last_week : Nat
  deriving Repr, DecidableEq

/-- State at construction: `(None, 0)` (source lines 36-37). -/
def initState : OrchState := { last_analysis_date := none, models_validated_last_week := 0 }

/-- The collaborator capability set consumed by the orchestrator (spec §6).
`E` is the abstract exception type; a call either returns or raises. -/
structure Collaborators (E : Type) where
  get_current_market_data : Except E MarketData
  get_cached_data : Except E CachedTrendData
  extract_insights : Except E CustomerInsights
  get_competitor_intelligence : String → Except E CompetitorData
  create_models : String → Int → List String → Except E (List Proposal)
  validate : String → Option String → Option Int → Except E Bool
  optimize : String → Option String → Option Int → Except E Int
  update_model : String → Int → Except E Unit
  model_count : Nat

/-- Ghost record of one collaborator invocation, with the arguments the
orchestrator passed. -/
inductive Call where
  | get_current_market_data
  | get_cached_data
  | extract_insights
  | get_competitor_intelligence (market_segment : String)
  | create_models (market_segment : String) (target_revenue : Int) (pain_points : List String)
  | validate (uuid : String) (market_segment : Option String) (revenue_projections : Option Int)
  | optimize (uuid : String) (market_segment : Option String) (revenue_projections : Option Int)
  | update_model (uuid : String) (payload : Int)
  deriving Repr, DecidableEq

/-- CPython dict assignment `m[k] = v`: an existing key keeps its position
and receives the new value; a fresh key is appended. -/
def dictInsert (m : List (String × Bool)) (k : String) (v : Bool) : List (String × Bool) :=
  if m.any (fun p => p.1 = k) then
    m.map (fun p => if p.1 = k then (k, v) else p)
  else
    m ++ [(k, v)]

/-- Dict lookup `m[k]` as an option. -/
def lookup (m : List (String × Bool)) (k : String) : Option Bool :=
  (m.find? (fun p => p.1 = k)).map (fun p => p.2)

/-- `analyze_market_trends` (source lines 39-60): fetch market data, then
customer insights, build the normalized report, set `_last_analysis_date`
to today. Any collaborator failure is re-raised unchanged and leaves the
state untouched. -/
def analyze_market_trends {E : Type} (c : Collaborators E) (today : Nat) (s : OrchState) :
    Except E MarketTrendReport × OrchState × List Call :=
  match c.get_current_market_data with
  | .error e => (.error e, s, [.get_current_market_data])
  | .ok market_data =>
    match c.extract_insights with
    | .error e => (.error e, s, [.get_current_market_data, .extract_insights])
    | .ok customer_insights =>
      (.ok { market_growth := market_data.growth_rate,
             customer_pain_points := customer_insights.pain_points },
       { s with last_analysis_date := some today },
       [.get_current_market_data, .extract_insights])

/-- The freshness test of `generate_business_models` (source line 75):
`not self._last_analysis_date or date.today() > self._last_analysis_date`.
(A `date` object is always truthy in Python, so the first disjunct is
exactly `is None`.) -/
def stale (today : Nat) (lad : Option Nat) : Bool :=
  match lad with
  | none => true
  | some d => today > d

/-- `generate_business_models` (source lines 62-91): pick fresh analysis or
the Market Analyzer's cache by the freshness test, then forward the selected
`customer_pain_points` with the segment and target revenue to
`create_models`, returning its result unmodified. -/
def generate_business_models {E : Type} (c : Collaborators E) (today : Nat) (s : OrchState)
    (market_segment : String) (target_revenue : Int) :
    Except E (List Proposal) × OrchState × List Call :=
  if stale today s.last_analysis_date then
    match analyze_market_trends c today s with
    | (.error e, s1, tc) => (.error e, s1, tc)
    | (.ok report, s1, tc) =>
      match c.create_models market_segment target_revenue report.customer_pain_points with
      | .error e =>
        (.error e, s1,
         tc ++ [.create_models market_segment target_revenue report.customer_pain_points])
      | .ok proposed_models =>
        (.ok proposed_models, s1,
         tc ++ [.create_models market_segment target_revenue report.customer_pain_points])
  else
    match c.get_cached_data with
    | .error e => (.error e, s, [.get_cached_data])
    | .ok cached =>
      match c.create_models market_segment target_revenue cached.customer_pain_points with
      | .error e =>
        (.error e, s,
         [.get_cached_data,
          .create_models market_segment target_revenue cached.customer_pain_points])
      | .ok proposed_models =>
        (.ok proposed_models, s,
         [.get_cached_data,
          .create_models market_segment target_revenue cached.customer_pain_points])

/-- The `validate` call issued for one input model (source lines 103-107). -/
def vcall (m : ModelRef) : Call :=
  .validate m.uuid m.market_segment m.revenue_projections

/-- The `optimize` call issued for one input model (source lines 127-131). -/
def ocall (m : ModelRef) : Call :=
  .optimize m.uuid m.market_segment m.revenue_projections

/-- The loop of `validate_models` (source lines 101-111), with the running
dict as accumulator: on the first collaborator failure the whole call
raises; otherwise the result for each uuid is stored with dict assignment. -/
def validateGo {E : Type} (c : Collaborators E) :
    List ModelRef → List (String × Bool) → Except E (List (String × Bool)) × List Call
  | [], acc => (.ok acc, [])
  | m :: rest, acc =>
    match c.validate m.uuid m.market_segment m.revenue_projections with
    | .error e => (.error e, [vcall m])
    | .ok is_valid =>
      let r := validateGo c rest (dictInsert acc m.uuid is_valid)
      (r.1, vcall m :: r.2)

/-- `validate_models` (source lines 93-115). -/
def validate_models {E : Type} (c : Collaborators E) (models_to_validate : List ModelRef) :
    Except E (List (String × Bool)) × List Call :=
  validateGo c models_to_validate []

/-- The loop of `optimize_models` (source lines 125-135), with the output
list as accumulator: each optimized record is appended in input order;
the first collaborator failure aborts the whole call. -/
def optimizeGo {E : Type} (c : Collaborators E) :
    List ModelRef → List Int → Except E (List Int) × List Call
  | [], acc => (.ok acc, [])
  | m :: rest, acc =>
    match c.optimize m.uuid m.market_segment m.revenue_projections with
    | .error e => (.error e, [ocall m])
    | .ok optimized_model =>
      let r := optimizeGo c rest (acc ++ [optimized_model])
      (r.1, ocall m :: r.2)

/-- `optimize_models` (source lines 117-139). -/
def optimize_models {E : Type} (c : Collaborators E) (models_to_optimize : List ModelRef) :
    Except E (List Int) × List Call :=
  optimizeGo c models_to_optimize []

/-- Index-0 access on a Python list: raises `IndexError` when empty. -/
inductive TrackErr (E : Type) where
  | collab (e : E)
  | indexError
  deriving Repr, DecidableEq

/-- `track_competition` (source lines 141-163): fetch competitor data, then
build the analysis from `gaps[0]` and `recommendations[0]`; Python evaluates
`gaps[0]` first, so an empty `gaps` raises before `recommendations` is
indexed. -/
def track_competition {E : Type} (c : Collaborators E) (market_segment : String) :
    Except (TrackErr E) CompetitiveAnalysis × List Call :=
  match c.get_competitor_intelligence market_segment with
  | .error e => (.error (.collab e), [.get_competitor_intelligence market_segment])
  | .ok competitor_data =>
    match competitor_data.gaps with
    | [] => (.error .indexError, [.get_competitor_intelligence market_segment])
    | g :: _ =>
      match competitor_data.recommendations with
      | [] => (.error .indexError, [.get_competitor_intelligence market_segment])
      | r :: _ =>
        (.ok { key_opportunity := g, differentiation_strategy := r },
         [.get_competitor_intelligence market_segment])

/-- The loop of `update_models` (source lines 165-177): forward each
(uuid, payload) pair to `update_model`, aborting on the first failure. -/
def update_models {E : Type} (c : Collaborators E) :
    List (String × Int) → Except E Unit × List Call
  | [] => (.ok (), [])
  | (uuid, updates) :: rest =>
    match c.update_model uuid updates with
    | .error e => (.error e, [.update_model uuid updates])
    | .ok _ =>
      let r := update_models c rest
      (r.1, .update_model uuid updates :: r.2)

/-- The dict returned by `get_dashboard_data` (source lines 179-193); the
date is kept as the abstract `Nat` day (`isoformat` is an injective
rendering of it). -/
structure DashboardData where
  models_count : Nat
  validations_last_week : Nat
  last_analysis_date : Option Nat
  deriving Repr, DecidableEq

/-- `get_dashboard_data` (source lines 179-193): a pure read of collaborator
count and orchestrator state. -/
def get_dashboard_data {E : Type} (c : Collaborators E) (s : OrchState) : DashboardData :=
  { models_count := c.model_count,
    validations_last_week := s.models_validated_last_week,
    last_analysis_date := s.last_analysis_date }

/-- One orchestrator operation together with the collaborator behaviour in
effect at that call (collaborators are external, so their responses may
differ from call to call). -/
inductive OpCall (E : Type) where
  | analyze (c : Collaborators E)
  | generate (c : Collaborators E) (market_segment : String) (target_revenue : Int)
  | validate (c : Collaborators E) (ms : List ModelRef)
  | optimize (c : Collaborators E) (ms : List ModelRef)
  | track (c : Collaborators E) (market_segment : String)
  | update (c : Collaborators E) (us : List (String × Int))
  | dashboard (c : Collaborators E)

/-- State transition of one operation invoked on a given day.
`analyze_market_trends` and `generate_business_models` are the only method
bodies of the source that assign to `self._...` fields; every other method
leaves the orchestrator state as it was. -/
def step {E : Type} (op : OpCall E) (today : Nat) (s : OrchState) : OrchState :=
  match op with
  | .analyze c => (analyze_market_trends c today s).2.1
  | .generate c seg tr => (generate_business_models c today s seg tr).2.1
  | .validate _ _ => s
  | .optimize _ _ => s
  | .track _ _ => s
  | .update _ _ => s
  | .dashboard _ => s

/-- Run a sequence of operations, each tagged with the calendar day on which
it is invoked. -/
def runOps {E : Type} (ops : List (OpCall E × Nat)) (s : OrchState) : OrchState :=
  ops.foldl (fun s p => step p.1 p.2 s) s

/-- The trajectory of states visited while running `ops` from `s`
(including the initial state). -/
def trajectory {E : Type} (ops : List (OpCall E × Nat)) (s : OrchState) : List OrchState :=
  ops.scanl (fun s p => step p.1 p.2 s) s

/-- Order on optional analysis dates: unset precedes everything; once set,
the date may only grow. -/
def dateLe : Option Nat → Option Nat → Bool
  | none, _ => true
  | some _, none => false
  | some d, some d' => d ≤ d'

/-- Concrete all-succeeding collaborator set used to instantiate theorems. -/
def cOK : Collaborators Nat where
  get_current_market_data := .ok { growth_rate := 3 }
  get_cached_data := .ok { customer_pain_points := ["cp1", "cp2"] }
  extract_insights := .ok { pain_points := ["p1", "p2"] }
  get_competitor_intelligence := fun _ => .ok { gaps := ["g1", "g2"], recommendations := ["r1"] }
  create_models := fun seg tr pp => .ok [{ uuid := seg ++ toString tr ++ toString pp.length, payload := tr }]
  validate := fun _ _ _ => .ok true
  optimize := fun _ _ _ => .ok 5
  update_model := fun _ _ => .ok ()
  model_count := 4

/-- Key insertion as CPython dict assignment sees it: an existing key keeps
its position, a fresh key goes to the end. -/
def insertKey (ks : List String) (u : String) : List String :=
  if u ∈ ks then ks else ks ++ [u]

/-- The key sequence a CPython dict holds after inserting `us` in order. -/
def distinctKeys (us : List String) : List String :=
  us.foldl insertKey []

/-- The last element of `ms` whose uuid is `u`, if any. -/
def lastOccur (u : String) : List ModelRef → Option ModelRef
  | [] => none
  | m :: rest =>
    match lastOccur u rest with
    | some r => some r
    | none => if m.uuid = u then some m else none

/-- Collaborators whose `validate`/`optimize` raise exactly on uuid "b". -/
def cFail : Collaborators Nat :=
  { cOK with
    validate := fun u _ _ => if u = "b" then .error 13 else .ok true
    optimize := fun u _ _ => if u = "b" then .error 14 else .ok 5 }

/-- A three-model batch whose middle item makes `cFail` raise. -/
def msW : List ModelRef :=
  [{ uuid := "a", market_segment := none, revenue_projections := none },
   { uuid := "b", market_segment := none, revenue_projections := none },
   { uuid := "c", market_segment := none, revenue_projections := none }]

/-- Collaborators whose `validate` result depends on the projections field,
so the two occurrences of a duplicated uuid get different booleans. -/
def cDup : Collaborators Nat :=
  { cOK with validate := fun _ _ proj => .ok (decide (proj = some 1)) }

/-- A batch with the uuid "a" duplicated (projections 1 then 2). -/
def msDup : List ModelRef :=
  [{ uuid := "a", market_segment := none, revenue_projections := some 1 },
   { uuid := "b", market_segment := none, revenue_projections := some 1 },
   { uuid := "a", market_segment := none, revenue_projections := some 2 }]

theorem dateLe_refl (a : Option Nat) : dateLe a a = true := by
  cases a <;> simp [dateLe]

theorem analyze_state_cases {E : Type} (c : Collaborators E) (t : Nat) (s : OrchState) :
    (analyze_market_trends c t s).2.1 = s ∨
    (analyze_market_trends c t s).2.1 = { s with last_analysis_date := some t } := by
  cases h1 : c.get_current_market_data <;>
    cases h2 : c.extract_insights <;>
    simp [analyze_market_trends, h1, h2]

theorem generate_state_eq {E : Type} (c : Collaborators E) (t : Nat) (s : OrchState)
    (seg : String) (tr : Int) :
    (generate_business_models c t s seg tr).2.1 =
      (if stale t s.last_analysis_date then (analyze_market_trends c t s).2.1 else s) := by
  unfold generate_business_models
  split
  · split
    · rename_i heq
      rw [heq]
    · rename_i heq
      split <;> rw [heq]
  · split
    · rfl
    · split <;> rfl

theorem step_state_cases {E : Type} (op : OpCall E) (t : Nat) (s : OrchState) :
    step op t s = s ∨ step op t s = { s with last_analysis_date := some t } := by
  cases op with
  | analyze c => exact analyze_state_cases c t s
  | generate c seg tr =>
    rw [step, generate_state_eq]
    split
    · exact analyze_state_cases c t s
    · exact Or.inl rfl
  | validate c ms => exact Or.inl rfl
  | optimize c ms => exact Or.inl rfl
  | track c seg => exact Or.inl rfl
  | update c us => exact Or.inl rfl
  | dashboard c => exact Or.inl rfl

theorem trajectory_head {E : Type} (ops : List (OpCall E × Nat)) (s : OrchState) :
    (trajectory ops s).head? = some s := by
  cases ops <;> rfl

theorem trajectory_mono_aux {E : Type} :
    ∀ (ops : List (OpCall E × Nat)) (s : OrchState),
      List.Chain' (fun a b => a ≤ b) (ops.map Prod.snd) →
      (∀ d t, s.last_analysis_date = some d → (ops.map Prod.snd).head? = some t → d ≤ t) →
      List.Chain' (fun a b => dateLe a.last_analysis_date b.last_analysis_date = true)
        (trajectory ops s)
  | [], s, _, _ => List.chain'_singleton s
  | (op, t) :: rest, s, hmono, hbd => by
    have hmono' : List.Chain' (fun a b => a ≤ b) (rest.map Prod.snd) :=
      (List.chain'_cons'.mp hmono).2
    have hle : ∀ t' ∈ (rest.map Prod.snd).head?, t ≤ t' :=
      (List.chain'_cons'.mp hmono).1
    have hstep := step_state_cases op t s
    have htraj : trajectory ((op, t) :: rest) s = s :: trajectory rest (step op t s) := rfl
    rw [htraj]
    apply List.chain'_cons'.mpr
    constructor
    · intro b hb
      rw [trajectory_head] at hb
      cases hb
      rcases hstep with h | h
      · rw [h]; exact dateLe_refl _
      · rw [h]
        cases hlad : s.last_analysis_date with
        | none => simp [dateLe]
        | some d =>
          simp only [dateLe, decide_eq_true_eq]
          exact hbd d t hlad rfl
    · apply trajectory_mono_aux rest (step op t s) hmono'
      intro d t' hd ht'
      rcases hstep with h | h
      · rw [h] at hd
        exact le_trans (hbd d t hd rfl) (hle t' ht')
      · rw [h] at hd
        simp only [OrchState.mk.injEq] at hd
        cases hd
        exact hle t' ht'

/-- C7: across every sequence of orchestrator operations invoked on
non-decreasing calendar days, `last_analysis_date`, once set, is
monotonically non-decreasing along the whole trajectory; each successful
`analyze_market_trends` call sets it to the current date; and
`validate_models`, `optimize_models`, `track_competition`, `update_models`
and `get_dashboard_data` never modify the orchestrator state. -/
theorem last_analysis_date_monotone {E : Type} (ops : List (OpCall E × Nat))
    (hmono : List.Chain' (fun a b => a ≤ b) (ops.map Prod.snd)) :
    List.Chain' (fun a b => dateLe a.last_analysis_date b.last_analysis_date = true)
      (trajectory ops initState) ∧
    (∀ (c : Collaborators E) (t : Nat) (s : OrchState) (r : MarketTrendReport),
      (analyze_market_trends c t s).1 = .ok r →
      (analyze_market_trends c t s).2.1.last_analysis_date = some t) ∧
    (∀ (c : Collaborators E) (t : Nat) (s : OrchState) (ms : List ModelRef)
       (us : List (String × Int)) (seg : String),
      step (.validate c ms) t s = s ∧ step (.optimize c ms) t s = s ∧
      step (.track c seg) t s = s ∧ step (.update c us) t s = s ∧
      step (.dashboard c) t s = s) := by
  refine ⟨?_, ?_, ?_⟩
  · apply trajectory_mono_aux ops initState hmono
    intro d t hd
    simp [initState] at hd
  · intro c t s r hr
    cases h1 : c.get_current_market_data with
    | error e => rw [analyze_market_trends] at hr; simp [h1] at hr
    | ok md =>
      cases h2 : c.extract_insights with
      | error e => rw [analyze_market_trends] at hr; simp [h1, h2] at hr
      | ok ins => simp [analyze_market_trends, h1, h2]
  · intro c t s ms us seg
    exact ⟨rfl, rfl, rfl, rfl, rfl⟩

/-- C7 witness: a concrete three-operation run on days 5 ≤ 6 ≤ 6. -/
theorem last_analysis_date_monotone_witness :
    List.Chain'
      (fun a b => dateLe a.last_analysis_date b.last_analysis_date = true)
      (trajectory [(.analyze cOK, 5), (.generate cOK "seg" 9, 6), (.validate cOK [], 6)]
        initState) :=
  (last_analysis_date_monotone
    [(.analyze cOK, 5), (.generate cOK "seg" 9, 6), (.validate cOK [], 6)]
    (by simp)).1

/-- C5: `analyze_market_trends` is all-or-nothing: if both collaborator
calls succeed it returns the complete report (growth from the market data,
pain points from the insights) and sets `last_analysis_date` to today; if
either collaborator raises, the original failure is re-raised unchanged and
the state is left untouched. -/
theorem analyze_market_trends_all_or_nothing {E : Type} (c : Collaborators E)
    (today : Nat) (s : OrchState) :
    (∀ (md : MarketData) (ins : CustomerInsights),
      c.get_current_market_data = .ok md → c.extract_insights = .ok ins →
      analyze_market_trends c today s =
        (.ok { market_growth := md.growth_rate, customer_pain_points := ins.pain_points },
         { s with last_analysis_date := some today },
         [.get_current_market_data, .extract_insights])) ∧
    (∀ e : E, c.get_current_market_data = .error e →
      (analyze_market_trends c today s).1 = .error e ∧
      (analyze_market_trends c today s).2.1 = s) ∧
    (∀ (md : MarketData) (e : E),
      c.get_current_market_data = .ok md → c.extract_insights = .error e →
      (analyze_market_trends c today s).1 = .error e ∧
      (analyze_market_trends c today s).2.1 = s) := by
  refine ⟨?_, ?_, ?_⟩
  · intro md ins h1 h2
    simp [analyze_market_trends, h1, h2]
  · intro e h1
    simp [analyze_market_trends, h1]
  · intro md e h1 h2
    simp [analyze_market_trends, h1, h2]

/-- C5 witness: concrete success run on day 7, and concrete failure runs
leaving the state untouched. -/
theorem analyze_market_trends_all_or_nothing_witness :
    analyze_market_trends cOK 7 initState =
      (.ok { market_growth := 3, customer_pain_points := ["p1", "p2"] },
       { last_analysis_date := some 7, models_validated_last_week := 0 },
       [.get_current_market_data, .extract_insights]) ∧
    (analyze_market_trends { cOK with get_current_market_data := .error 42 } 7 initState).1 =
      .error 42 ∧
    (analyze_market_trends { cOK with extract_insights := .error 9 } 7 initState).2.1 =
      initState := by
  refine ⟨?_, ?_, ?_⟩
  · exact (analyze_market_trends_all_or_nothing cOK 7 initState).1
      { growth_rate := 3 } { pain_points := ["p1", "p2"] } rfl rfl
  · exact ((analyze_market_trends_all_or_nothing
      { cOK with get_current_market_data := .error 42 } 7 initState).2.1 42 rfl).1
  · exact ((analyze_market_trends_all_or_nothing
      { cOK with extract_insights := .error 9 } 7 initState).2.2
      { growth_rate := 3 } 9 rfl rfl).2

/-- C8: calling `analyze_market_trends` twice on the same calendar day with
the same collaborator behaviour yields identical results (in particular two
structurally identical reports when both succeed) and the same final state
as a single call. -/
theorem analyze_market_trends_idempotent {E : Type} (c : Collaborators E) (today : Nat)
    (s : OrchState) :
    (analyze_market_trends c today (analyze_market_trends c today s).2.1).1 =
      (analyze_market_trends c today s).1 ∧
    (analyze_market_trends c today (analyze_market_trends c today s).2.1).2.1 =
      (analyze_market_trends c today s).2.1 := by
  cases h1 : c.get_current_market_data <;> cases h2 : c.extract_insights <;>
    simp [analyze_market_trends, h1, h2]

/-- C9: the weekly validation counter starts at 0, no operation ever
modifies it, and the dashboard therefore reports `validations_last_week = 0`
after every sequence of operations. -/
theorem counter_never_incremented {E : Type} (ops : List (OpCall E × Nat))
    (c : Collaborators E) :
    initState.models_validated_last_week = 0 ∧
    (∀ (op : OpCall E) (t : Nat) (s : OrchState),
      (step op t s).models_validated_last_week = s.models_validated_last_week) ∧
    (get_dashboard_data c (runOps ops initState)).validations_last_week = 0 := by
  have hstep : ∀ (op : OpCall E) (t : Nat) (s : OrchState),
      (step op t s).models_validated_last_week = s.models_validated_last_week := by
    intro op t s
    rcases step_state_cases op t s with h | h <;> rw [h]
  refine ⟨rfl, hstep, ?_⟩
  have : ∀ (l : List (OpCall E × Nat)) (s : OrchState),
      (runOps l s).models_validated_last_week = s.models_validated_last_week := by
    intro l
    induction l with
    | nil => intro s; rfl
    | cons p rest ih =>
      intro s
      rw [runOps, List.foldl_cons]
      exact (ih (step p.1 p.2 s)).trans (hstep p.1 p.2 s)
  exact this ops initState

/-- C6: `track_competition` returns the first gap as `key_opportunity` and
the first recommendation as `differentiation_strategy` when both sequences
are non-empty; if either sequence is empty it fails with an index error
instead of returning a result. -/
theorem track_competition_first_elements {E : Type} (c : Collaborators E) (seg : String) :
    (∀ (cd : CompetitorData) (g r : String) (gs rs : List String),
      c.get_competitor_intelligence seg = .ok cd →
      cd.gaps = g :: gs → cd.recommendations = r :: rs →
      (track_competition c seg).1 =
        .ok { key_opportunity := g, differentiation_strategy := r }) ∧
    (∀ cd : CompetitorData,
      c.get_competitor_intelligence seg = .ok cd →
      cd.gaps = [] ∨ cd.recommendations = [] →
      (track_competition c seg).1 = .error .indexError) := by
  constructor
  · intro cd g r gs rs h1 hg hr
    simp [track_competition, h1, hg, hr]
  · intro cd h1 hemp
    rcases hemp with hg | hr
    · simp [track_competition, h1, hg]
    · cases hgs : cd.gaps with
      | nil => simp [track_competition, h1, hgs]
      | cons g gs => simp [track_competition, h1, hgs, hr]

/-- C6 witness: the spec's own example (`gaps = ["g1","g2"]`,
`recommendations = ["r1"]`) yields `{g1, r1}`, and empty gaps yield an
index error. -/
theorem track_competition_first_elements_witness :
    (track_competition cOK "X").1 =
      .ok { key_opportunity := "g1", differentiation_strategy := "r1" } ∧
    (track_competition
      { cOK with get_competitor_intelligence :=
          fun _ => .ok { gaps := [], recommendations := ["r1"] } } "X").1 =
      .error .indexError := by
  constructor
  · exact (track_competition_first_elements cOK "X").1
      { gaps := ["g1", "g2"], recommendations := ["r1"] } "g1" "r1" ["g2"] [] rfl rfl rfl
  · exact (track_competition_first_elements
      { cOK with get_competitor_intelligence :=
          fun _ => .ok { gaps := [], recommendations := ["r1"] } } "X").2
      { gaps := [], recommendations := ["r1"] } rfl (Or.inl rfl)

/-- C1: `generate_business_models` consults the freshness state exactly as
specified: with `last_analysis_date` unset or strictly before today it takes
the fresh-analysis path (the Market Analyzer's current data is fetched,
`get_cached_data` is never called); with `last_analysis_date` equal to today
it calls `get_cached_data` and never the fresh path; in both cases the
selected trend source's `customer_pain_points` are forwarded with the
segment and target revenue to `create_models`, whose result is returned
unmodified. -/
theorem generate_business_models_freshness {E : Type} (c : Collaborators E)
    (today : Nat) (s : OrchState) (seg : String) (tr : Int) :
    (s.last_analysis_date = none ∨ (∃ d, s.last_analysis_date = some d ∧ d < today) →
      Call.get_cached_data ∉ (generate_business_models c today s seg tr).2.2 ∧
      Call.get_current_market_data ∈ (generate_business_models c today s seg tr).2.2 ∧
      (∀ (md : MarketData) (ins : CustomerInsights),
        c.get_current_market_data = .ok md → c.extract_insights = .ok ins →
        (generate_business_models c today s seg tr).1 =
          c.create_models seg tr ins.pain_points ∧
        Call.create_models seg tr ins.pain_points ∈
          (generate_business_models c today s seg tr).2.2)) ∧
    (s.last_analysis_date = some today →
      Call.get_current_market_data ∉ (generate_business_models c today s seg tr).2.2 ∧
      Call.extract_insights ∉ (generate_business_models c today s seg tr).2.2 ∧
      Call.get_cached_data ∈ (generate_business_models c today s seg tr).2.2 ∧
      (∀ cd : CachedTrendData, c.get_cached_data = .ok cd →
        (generate_business_models c today s seg tr).1 =
          c.create_models seg tr cd.customer_pain_points ∧
        Call.create_models seg tr cd.customer_pain_points ∈
          (generate_business_models c today s seg tr).2.2)) := by
  constructor
  · intro h
    have hstale : stale today s.last_analysis_date = true := by
      rcases h with h | ⟨d, hd, hlt⟩
      · rw [h]; rfl
      · rw [hd]; simp [stale]; exact hlt
    cases h1 : c.get_current_market_data with
    | error e =>
      refine ⟨?_, ?_, ?_⟩ <;>
        simp [generate_business_models, analyze_market_trends, hstale, h1]
    | ok md =>
      cases h2 : c.extract_insights with
      | error e =>
        refine ⟨?_, ?_, ?_⟩ <;>
          simp [generate_business_models, analyze_market_trends, hstale, h1, h2]
      | ok ins =>
        cases h3 : c.create_models seg tr ins.pain_points with
        | error e =>
          refine ⟨?_, ?_, ?_⟩ <;>
            simp [generate_business_models, analyze_market_trends, hstale, h1, h2, h3]
        | ok ps =>
          refine ⟨?_, ?_, ?_⟩ <;>
            simp [generate_business_models, analyze_market_trends, hstale, h1, h2, h3]
  · intro h
    have hstale : stale today s.last_analysis_date = false := by
      rw [h]; simp [stale]
    cases h3 : c.get_cached_data with
    | error e =>
      refine ⟨?_, ?_, ?_, ?_⟩ <;>
        simp [generate_business_models, hstale, h3]
    | ok cd =>
      cases h4 : c.create_models seg tr cd.customer_pain_points with
      | error e =>
        refine ⟨?_, ?_, ?_, ?_⟩ <;>
          simp [generate_business_models, hstale, h3, h4]
      | ok ps =>
        refine ⟨?_, ?_, ?_, ?_⟩ <;>
          simp [generate_business_models, hstale, h3, h4]

/-- C1 witness: with the date unset the fresh path runs (no
`get_cached_data` call) and the insight pain points are forwarded; with the
date equal to today only the cache is consulted and its pain points are
forwarded; both results are `create_models`' output unmodified. -/
theorem generate_business_models_freshness_witness :
    (Call.get_cached_data ∉ (generate_business_models cOK 7 initState "A" 9).2.2 ∧
     Call.get_current_market_data ∈ (generate_business_models cOK 7 initState "A" 9).2.2 ∧
     (generate_business_models cOK 7 initState "A" 9).1 =
       cOK.create_models "A" 9 ["p1", "p2"]) ∧
    (Call.get_current_market_data ∉
       (generate_business_models cOK 7 ⟨some 7, 0⟩ "A" 9).2.2 ∧
     Call.get_cached_data ∈ (generate_business_models cOK 7 ⟨some 7, 0⟩ "A" 9).2.2 ∧
     (generate_business_models cOK 7 ⟨some 7, 0⟩ "A" 9).1 =
       cOK.create_models "A" 9 ["cp1", "cp2"]) := by
  have hf := (generate_business_models_freshness cOK 7 initState "A" 9).1 (Or.inl rfl)
  have hc := (generate_business_models_freshness cOK 7 ⟨some 7, 0⟩ "A" 9).2 rfl
  have hf3 := hf.2.2 { growth_rate := 3 } { pain_points := ["p1", "p2"] } rfl rfl
  have hc3 := hc.2.2.2 { customer_pain_points := ["cp1", "cp2"] } rfl
  exact ⟨⟨hf.1, hf.2.1, hf3.1⟩, ⟨hc.1, hc.2.2.1, hc3.1⟩⟩

theorem optimizeGo_all_ok {E : Type} (c : Collaborators E) (g : ModelRef → Int)
    (models : List ModelRef) :
    ∀ acc : List Int,
      (∀ m ∈ models, c.optimize m.uuid m.market_segment m.revenue_projections = .ok (g m)) →
      (optimizeGo c models acc).1 = .ok (acc ++ models.map g) := by
  induction models with
  | nil => intro acc _; simp [optimizeGo]
  | cons m rest ih =>
    intro acc hok
    have h1 := hok m (List.mem_cons_self m rest)
    have ih' := ih (acc ++ [g m]) (fun m' hm' => hok m' (List.mem_cons_of_mem m hm'))
    simp [optimizeGo, h1, ih']

/-- C3: when every `optimize` call succeeds, `optimize_models` returns the
collaborator's optimized representations in input order, one per input
model (so the output has the input's length). -/
theorem optimize_models_order {E : Type} (c : Collaborators E)
    (models : List ModelRef) (g : ModelRef → Int)
    (hok : ∀ m ∈ models, c.optimize m.uuid m.market_segment m.revenue_projections = .ok (g m)) :
    (optimize_models c models).1 = .ok (models.map g) ∧
    (models.map g).length = models.length := by
  refine ⟨?_, by simp⟩
  have h := optimizeGo_all_ok c g models [] hok
  simpa [optimize_models] using h

/-- C3 witness: a two-model batch against the all-succeeding collaborators
yields both optimized records in order. -/
theorem optimize_models_order_witness :
    (optimize_models cOK
      [{ uuid := "a", market_segment := some "s", revenue_projections := none },
       { uuid := "b", market_segment := none, revenue_projections := some 2 }]).1 =
      .ok [5, 5] := by
  have h := optimize_models_order cOK
    [{ uuid := "a", market_segment := some "s", revenue_projections := none },
     { uuid := "b", market_segment := none, revenue_projections := some 2 }]
    (fun _ => 5) (by intro m _; rfl)
  simpa using h.1

theorem validateGo_fail_fast {E : Type} (c : Collaborators E) (e : E) :
    ∀ (models : List ModelRef) (k : Nat) (hk : k < models.length)
      (acc : List (String × Bool)),
      (∀ m ∈ models.take k,
        ∃ b, c.validate m.uuid m.market_segment m.revenue_projections = .ok b) →
      c.validate (models.get ⟨k, hk⟩).uuid (models.get ⟨k, hk⟩).market_segment
        (models.get ⟨k, hk⟩).revenue_projections = .error e →
      validateGo c models acc = (.error e, (models.take (k + 1)).map vcall) := by
  intro models
  induction models with
  | nil => intro k hk; exact absurd hk (by simp)
  | cons m rest ih =>
    intro k hk acc hpre hfail
    cases k with
    | zero =>
      simp only [List.get] at hfail
      simp [validateGo, hfail, vcall]
    | succ k' =>
      rcases hpre m (by simp [List.take_succ_cons]) with ⟨b, hb⟩
      simp only [List.get] at hfail
      have ih' := ih k' (by simpa using hk) (dictInsert acc m.uuid b)
        (fun m' hm' => hpre m' (by simp [List.take_succ_cons, hm']))
        hfail
      simp [validateGo, hb, ih', List.take_succ_cons]

theorem optimizeGo_fail_fast {E : Type} (c : Collaborators E) (e : E) :
    ∀ (models : List ModelRef) (k : Nat) (hk : k < models.length) (acc : List Int),
      (∀ m ∈ models.take k,
        ∃ x, c.optimize m.uuid m.market_segment m.revenue_projections = .ok x) →
      c.optimize (models.get ⟨k, hk⟩).uuid (models.get ⟨k, hk⟩).market_segment
        (models.get ⟨k, hk⟩).revenue_projections = .error e →
      optimizeGo c models acc = (.error e, (models.take (k + 1)).map ocall) := by
  intro models
  induction models with
  | nil => intro k hk; exact absurd hk (by simp)
  | cons m rest ih =>
    intro k hk acc hpre hfail
    cases k with
    | zero =>
      simp only [List.get] at hfail
      simp [optimizeGo, hfail, ocall]
    | succ k' =>
      rcases hpre m (by simp [List.take_succ_cons]) with ⟨x, hx⟩
      simp only [List.get] at hfail
      have ih' := ih k' (by simpa using hk) (acc ++ [x])
        (fun m' hm' => hpre m' (by simp [List.take_succ_cons, hm']))
        hfail
      simp [optimizeGo, hx, ih', List.take_succ_cons]

/-- C4: `validate_models` and `optimize_models` are fail-fast: if the items
before position k all succeed and the collaborator raises at position k,
the whole operation raises that very failure, no partial mapping or
sequence is produced, and the collaborator is called exactly for the first
k+1 items (never for items after the failing one); an empty input yields an
empty result with zero collaborator calls. -/
theorem batch_fail_fast {E : Type} (c : Collaborators E) :
    (∀ (models : List ModelRef) (k : Nat) (hk : k < models.length) (e : E),
      (∀ m ∈ models.take k,
        ∃ b, c.validate m.uuid m.market_segment m.revenue_projections = .ok b) →
      c.validate (models.get ⟨k, hk⟩).uuid (models.get ⟨k, hk⟩).market_segment
        (models.get ⟨k, hk⟩).revenue_projections = .error e →
      validate_models c models = (.error e, (models.take (k + 1)).map vcall)) ∧
    (∀ (models : List ModelRef) (k : Nat) (hk : k < models.length) (e : E),
      (∀ m ∈ models.take k,
        ∃ x, c.optimize m.uuid m.market_segment m.revenue_projections = .ok x) →
      c.optimize (models.get ⟨k, hk⟩).uuid (models.get ⟨k, hk⟩).market_segment
        (models.get ⟨k, hk⟩).revenue_projections = .error e →
      optimize_models c models = (.error e, (models.take (k + 1)).map ocall)) ∧
    validate_models c ([] : List ModelRef) = (.ok [], []) ∧
    optimize_models c ([] : List ModelRef) = (.ok [], []) := by
  refine ⟨?_, ?_, rfl, rfl⟩
  · intro models k hk e hpre hfail
    exact validateGo_fail_fast c e models k hk [] hpre hfail
  · intro models k hk e hpre hfail
    exact optimizeGo_fail_fast c e models k hk [] hpre hfail

/-- C4 witness: against `cFail` the three-model batch aborts at the second
item with the collaborator's error, having called the collaborator exactly
for the first two items; empty batches issue no calls. -/
theorem batch_fail_fast_witness :
    validate_models cFail msW = (.error 13, (msW.take 2).map vcall) ∧
    optimize_models cFail msW = (.error 14, (msW.take 2).map ocall) ∧
    validate_models cFail ([] : List ModelRef) = (.ok [], []) ∧
    optimize_models cFail ([] : List ModelRef) = (.ok [], []) := by
  have h := batch_fail_fast cFail
  have hpv : ∀ m ∈ msW.take 1,
      ∃ b, cFail.validate m.uuid m.market_segment m.revenue_projections = .ok b := by
    intro m hm
    simp [msW] at hm
    subst hm
    exact ⟨true, rfl⟩
  have hpo : ∀ m ∈ msW.take 1,
      ∃ x, cFail.optimize m.uuid m.market_segment m.revenue_projections = .ok x := by
    intro m hm
    simp [msW] at hm
    subst hm
    exact ⟨5, rfl⟩
  exact ⟨h.1 msW 1 (by decide) 13 hpv rfl,
         h.2.1 msW 1 (by decide) 14 hpo rfl,
         h.2.2.1, h.2.2.2⟩

theorem dictInsert_fresh (acc : List (String × Bool)) (k : String) (v : Bool)
    (h : ∀ p ∈ acc, p.1 ≠ k) :
    dictInsert acc k v = acc ++ [(k, v)] := by
  have hc : acc.any (fun p => decide (p.1 = k)) = false := by
    rw [List.any_eq_false]
    intro p hp
    simpa using h p hp
  simp [dictInsert, hc]

theorem validateGo_nodup {E : Type} (c : Collaborators E) (f : ModelRef → Bool) :
    ∀ (models : List ModelRef) (acc : List (String × Bool)),
      (∀ m ∈ models, c.validate m.uuid m.market_segment m.revenue_projections = .ok (f m)) →
      (models.map ModelRef.uuid).Nodup →
      (∀ m ∈ models, ∀ p ∈ acc, p.1 ≠ m.uuid) →
      (validateGo c models acc).1 = .ok (acc ++ models.map (fun m => (m.uuid, f m))) := by
  intro models
  induction models with
  | nil => intro acc _ _ _; simp [validateGo]
  | cons m rest ih =>
    intro acc hok hnd hfresh
    have h1 := hok m (List.mem_cons_self m rest)
    have hins : dictInsert acc m.uuid (f m) = acc ++ [(m.uuid, f m)] :=
      dictInsert_fresh acc m.uuid (f m)
        (fun p hp => hfresh m (List.mem_cons_self m rest) p hp)
    have hnd0 : (∀ x ∈ rest, ¬ x.uuid = m.uuid) ∧ (rest.map ModelRef.uuid).Nodup := by
      simpa using hnd
    have hfresh' : ∀ m' ∈ rest, ∀ p ∈ acc ++ [(m.uuid, f m)], p.1 ≠ m'.uuid := by
      intro m' hm' p hp
      rcases List.mem_append.mp hp with hpa | hpb
      · exact hfresh m' (List.mem_cons_of_mem m hm') p hpa
      · simp only [List.mem_singleton] at hpb
        subst hpb
        intro hq
        exact hnd0.1 m' hm' hq.symm
    have ih' := ih (acc ++ [(m.uuid, f m)])
      (fun m' hm' => hok m' (List.mem_cons_of_mem m hm')) hnd0.2 hfresh'
    simp [validateGo, h1, hins, ih']

/-- C2 (amended): for input sequences whose uuids are pairwise distinct,
when every `validate` call succeeds, `validate_models` returns the mapping
with exactly one entry per input model (N entries for N models), keyed by
uuid, each holding the collaborator's boolean for that uuid. -/
theorem validate_models_nodup_spec {E : Type} (c : Collaborators E)
    (models : List ModelRef) (f : ModelRef → Bool)
    (hnd : (models.map ModelRef.uuid).Nodup)
    (hok : ∀ m ∈ models, c.validate m.uuid m.market_segment m.revenue_projections = .ok (f m)) :
    (validate_models c models).1 = .ok (models.map (fun m => (m.uuid, f m))) ∧
    (models.map (fun m => (m.uuid, f m))).length = models.length := by
  refine ⟨?_, by simp⟩
  have h := validateGo_nodup c f models [] hok hnd (by intro m _ p hp; simp at hp)
  simpa [validate_models] using h

/-- C2 witness (amended claim): a two-model batch with distinct uuids
yields the two-entry mapping with the collaborator's booleans. -/
theorem validate_models_nodup_spec_witness :
    (validate_models cOK
      [{ uuid := "a", market_segment := none, revenue_projections := none },
       { uuid := "b", market_segment := none, revenue_projections := none }]).1 =
      .ok [("a", true), ("b", true)] := by
  have h := validate_models_nodup_spec cOK
    [{ uuid := "a", market_segment := none, revenue_projections := none },
     { uuid := "b", market_segment := none, revenue_projections := none }]
    (fun _ => true) (by decide) (by intro m _; rfl)
  simpa using h.1

/-- C2 counterexample: two input models sharing uuid "a", with every
`validate` call succeeding, yield a one-entry mapping — not a mapping with
as many entries as input models. -/
theorem validate_models_entry_count_counterexample :
    (validate_models cOK
      [{ uuid := "a", market_segment := none, revenue_projections := none },
       { uuid := "a", market_segment := none, revenue_projections := none }]).1 =
      .ok [("a", true)] ∧
    ¬ ∃ l, (validate_models cOK
      [{ uuid := "a", market_segment := none, revenue_projections := none },
       { uuid := "a", market_segment := none, revenue_projections := none }]).1 =
        .ok l ∧ l.length = 2 := by
  have h1 : (validate_models cOK
      [{ uuid := "a", market_segment := none, revenue_projections := none },
       { uuid := "a", market_segment := none, revenue_projections := none }]).1 =
      .ok [("a", true)] := rfl
  refine ⟨h1, ?_⟩
  rintro ⟨l, hl, hlen⟩
  rw [h1] at hl
  injection hl with h2
  subst h2
  simp at hlen

theorem mem_insertKey (ks : List String) (v u : String) :
    u ∈ insertKey ks v ↔ u ∈ ks ∨ u = v := by
  rw [insertKey]
  split
  · rename_i h
    constructor
    · exact Or.inl
    · rintro (h' | rfl)
      · exact h'
      · exact h
  · simp

theorem nodup_insertKey (ks : List String) (v : String) (h : ks.Nodup) :
    (insertKey ks v).Nodup := by
  rw [insertKey]
  split
  · exact h
  · rename_i hv
    simp [List.nodup_append, h, hv]

theorem mem_foldl_insertKey : ∀ (us ks : List String) (u : String),
    u ∈ us.foldl insertKey ks ↔ u ∈ ks ∨ u ∈ us
  | [], ks, u => by simp
  | v :: us, ks, u => by
    rw [List.foldl_cons, mem_foldl_insertKey us (insertKey ks v) u, mem_insertKey,
        or_assoc]
    simp [List.mem_cons]

theorem nodup_foldl_insertKey : ∀ (us ks : List String),
    ks.Nodup → (us.foldl insertKey ks).Nodup
  | [], _, h => h
  | v :: us, ks, h =>
    nodup_foldl_insertKey us (insertKey ks v) (nodup_insertKey ks v h)

theorem length_foldl_insertKey_le : ∀ (us ks : List String),
    (us.foldl insertKey ks).length ≤ ks.length + us.length
  | [], ks => by simp
  | v :: us, ks => by
    have h := length_foldl_insertKey_le us (insertKey ks v)
    have hik : (insertKey ks v).length ≤ ks.length + 1 := by
      rw [insertKey]
      split
      · exact Nat.le_succ _
      · simp
    rw [List.foldl_cons]
    simp only [List.length_cons]
    omega

theorem length_foldl_insertKey_lt : ∀ (us ks : List String),
    (¬ us.Nodup ∨ ∃ u ∈ us, u ∈ ks) →
    (us.foldl insertKey ks).length < ks.length + us.length
  | [], ks, h => by
    rcases h with h | ⟨u, hu, _⟩
    · exact absurd List.nodup_nil h
    · simp at hu
  | v :: us, ks, h => by
    rw [List.foldl_cons]
    by_cases hv : v ∈ ks
    · have hik : insertKey ks v = ks := by rw [insertKey, if_pos hv]
      rw [hik]
      have hle := length_foldl_insertKey_le us ks
      simp only [List.length_cons]
      omega
    · have hik : insertKey ks v = ks ++ [v] := by rw [insertKey, if_neg hv]
      have hrec : ¬ us.Nodup ∨ ∃ u ∈ us, u ∈ insertKey ks v := by
        rcases h with h | ⟨u, hu, hk⟩
        · rw [List.nodup_cons] at h
          push_neg at h
          by_cases hvus : v ∈ us
          · exact Or.inr ⟨v, hvus, by rw [hik]; simp⟩
          · exact Or.inl (h hvus)
        · rcases List.mem_cons.mp hu with rfl | hu'
          · exact absurd hk hv
          · exact Or.inr ⟨u, hu', by rw [hik]; exact List.mem_append_left [v] hk⟩
      have hlt := length_foldl_insertKey_lt us (insertKey ks v) hrec
      rw [hik] at hlt
      rw [hik]
      simp only [List.length_append, List.length_singleton] at hlt
      simp only [List.length_cons]
      omega

theorem dictInsert_map_fst (acc : List (String × Bool)) (k : String) (v : Bool) :
    (dictInsert acc k v).map Prod.fst = insertKey (acc.map Prod.fst) k := by
  rw [dictInsert, insertKey]
  by_cases h : ∃ p ∈ acc, p.1 = k
  · have hany : (acc.any fun p => decide (p.1 = k)) = true := by
      rw [List.any_eq_true]
      rcases h with ⟨p, hp, hk⟩
      exact ⟨p, hp, by simpa using hk⟩
    have hmem : k ∈ acc.map Prod.fst := by
      rcases h with ⟨p, hp, hk⟩
      exact List.mem_map.mpr ⟨p, hp, hk⟩
    rw [if_pos hany, if_pos hmem, List.map_map]
    apply List.map_congr_left
    intro p _
    by_cases hpk : p.1 = k <;> simp [Function.comp, hpk]
  · have hany : ¬ (acc.any fun p => decide (p.1 = k)) = true := by
      rw [List.any_eq_true]
      rintro ⟨p, hp, hk⟩
      exact h ⟨p, hp, by simpa using hk⟩
    have hmem : k ∉ acc.map Prod.fst := by
      intro hk
      rcases List.mem_map.mp hk with ⟨p, hp, hpk⟩
      exact h ⟨p, hp, hpk⟩
    rw [if_neg hany, if_neg hmem, List.map_append]
    rfl

theorem foldl_dictInsert_map_fst (f : ModelRef → Bool) :
    ∀ (models : List ModelRef) (acc : List (String × Bool)),
      (models.foldl (fun a m => dictInsert a m.uuid (f m)) acc).map Prod.fst =
        (models.map ModelRef.uuid).foldl insertKey (acc.map Prod.fst)
  | [], _ => rfl
  | m :: rest, acc => by
    rw [List.foldl_cons, List.map_cons, List.foldl_cons,
        foldl_dictInsert_map_fst f rest (dictInsert acc m.uuid (f m)),
        dictInsert_map_fst]

theorem validateGo_all_ok {E : Type} (c : Collaborators E) (f : ModelRef → Bool) :
    ∀ (models : List ModelRef) (acc : List (String × Bool)),
      (∀ m ∈ models, c.validate m.uuid m.market_segment m.revenue_projections = .ok (f m)) →
      (validateGo c models acc).1 =
        .ok (models.foldl (fun a m => dictInsert a m.uuid (f m)) acc)
  | [], _, _ => rfl
  | m :: rest, acc, hok => by
    have h1 := hok m (List.mem_cons_self m rest)
    have ih := validateGo_all_ok c f rest (dictInsert acc m.uuid (f m))
      (fun m' hm' => hok m' (List.mem_cons_of_mem m hm'))
    simp [validateGo, h1, ih]

theorem lookup_cons_eq (q : String × Bool) (l : List (String × Bool)) (u : String)
    (h : q.1 = u) : lookup (q :: l) u = some q.2 := by
  rw [lookup, List.find?_cons_of_pos]
  · rfl
  · simp [h]

theorem lookup_cons_ne (q : String × Bool) (l : List (String × Bool)) (u : String)
    (h : q.1 ≠ u) : lookup (q :: l) u = lookup l u := by
  rw [lookup, lookup, List.find?_cons_of_neg]
  simp [h]

theorem dictInsert_cons_ne (p : String × Bool) (acc : List (String × Bool)) (k : String)
    (v : Bool) (h : p.1 ≠ k) :
    dictInsert (p :: acc) k v = p :: dictInsert acc k v := by
  rw [dictInsert, dictInsert]
  have hcond : ((p :: acc).any fun q => decide (q.1 = k)) =
      (acc.any fun q => decide (q.1 = k)) := by
    simp [List.any_cons, h]
  rw [hcond]
  by_cases hany : (acc.any fun q => decide (q.1 = k)) = true
  · rw [if_pos hany, if_pos hany, List.map_cons, if_neg h]
  · rw [if_neg hany, if_neg hany, List.cons_append]

theorem lookup_map_update_ne (k : String) (v : Bool) (u : String) (h : u ≠ k) :
    ∀ acc : List (String × Bool),
      lookup (acc.map (fun p => if p.1 = k then (k, v) else p)) u = lookup acc u
  | [] => rfl
  | q :: acc => by
    rw [List.map_cons]
    by_cases hq : q.1 = k
    · rw [if_pos hq]
      rw [lookup_cons_ne (k, v) _ u (fun hh => h hh.symm)]
      rw [lookup_cons_ne q acc u (by rw [hq]; exact fun hh => h hh.symm)]
      exact lookup_map_update_ne k v u h acc
    · rw [if_neg hq]
      by_cases hqu : q.1 = u
      · rw [lookup_cons_eq q _ u hqu, lookup_cons_eq q acc u hqu]
      · rw [lookup_cons_ne q _ u hqu, lookup_cons_ne q acc u hqu]
        exact lookup_map_update_ne k v u h acc

theorem lookup_dictInsert_self : ∀ (acc : List (String × Bool)) (k : String) (v : Bool),
    lookup (dictInsert acc k v) k = some v
  | [], k, v => lookup_cons_eq (k, v) [] k rfl
  | p :: acc, k, v => by
    by_cases h : p.1 = k
    · have hany : ((p :: acc).any fun q => decide (q.1 = k)) = true := by
        simp [List.any_cons, h]
      rw [dictInsert, if_pos hany, List.map_cons, if_pos h]
      exact lookup_cons_eq (k, v) _ k rfl
    · rw [dictInsert_cons_ne p acc k v h, lookup_cons_ne p _ k h]
      exact lookup_dictInsert_self acc k v

theorem lookup_dictInsert_ne : ∀ (acc : List (String × Bool)) (k : String) (v : Bool)
    (u : String), u ≠ k → lookup (dictInsert acc k v) u = lookup acc u
  | [], k, v, u, h =>
    lookup_cons_ne (k, v) [] u (fun hh => h hh.symm)
  | p :: acc, k, v, u, h => by
    by_cases hp : p.1 = k
    · have hany : ((p :: acc).any fun q => decide (q.1 = k)) = true := by
        simp [List.any_cons, hp]
      rw [dictInsert, if_pos hany]
      exact lookup_map_update_ne k v u h (p :: acc)
    · rw [dictInsert_cons_ne p acc k v hp]
      by_cases hpu : p.1 = u
      · rw [lookup_cons_eq p _ u hpu, lookup_cons_eq p acc u hpu]
      · rw [lookup_cons_ne p _ u hpu, lookup_cons_ne p acc u hpu]
        exact lookup_dictInsert_ne acc k v u h

theorem lookup_foldl_lastOccur (f : ModelRef → Bool) :
    ∀ (models : List ModelRef) (acc : List (String × Bool)) (u : String),
      lookup (models.foldl (fun a m => dictInsert a m.uuid (f m)) acc) u =
        (match lastOccur u models with
         | some m => some (f m)
         | none => lookup acc u)
  | [], _, _ => rfl
  | m :: rest, acc, u => by
    rw [List.foldl_cons,
        lookup_foldl_lastOccur f rest (dictInsert acc m.uuid (f m)) u]
    show _ = (match lastOccur u (m :: rest) with
              | some r => some (f r)
              | none => lookup acc u)
    rw [lastOccur]
    cases hlo : lastOccur u rest with
    | some r => rfl
    | none =>
      by_cases hm : m.uuid = u
      · simp only [if_pos hm]
        rw [← hm]
        exact lookup_dictInsert_self acc m.uuid (f m)
      · simp only [if_neg hm]
        exact lookup_dictInsert_ne acc m.uuid (f m) u (fun hh => hm hh.symm)

/-- C10: when the input to `validate_models` contains duplicate uuids and
every `validate` call succeeds, the returned mapping has exactly one entry
per distinct uuid — its keys are the distinct input uuids (in
first-occurrence order, duplicate-free, covering exactly the input uuids),
so the mapping is strictly shorter than the input — and the value stored
under each uuid is the collaborator's boolean for its last occurrence in
the input sequence. -/
theorem validate_models_duplicate_uuids {E : Type} (c : Collaborators E)
    (models : List ModelRef) (f : ModelRef → Bool)
    (hdup : ¬ (models.map ModelRef.uuid).Nodup)
    (hok : ∀ m ∈ models, c.validate m.uuid m.market_segment m.revenue_projections = .ok (f m)) :
    ∃ mp, (validate_models c models).1 = .ok mp ∧
      mp.map Prod.fst = distinctKeys (models.map ModelRef.uuid) ∧
      (mp.map Prod.fst).Nodup ∧
      (∀ u, u ∈ mp.map Prod.fst ↔ u ∈ models.map ModelRef.uuid) ∧
      mp.length < models.length ∧
      (∀ u m, lastOccur u models = some m → lookup mp u = some (f m)) := by
  refine ⟨models.foldl (fun a m => dictInsert a m.uuid (f m)) [], ?_, ?_, ?_, ?_, ?_, ?_⟩
  · exact validateGo_all_ok c f models [] hok
  · have h := foldl_dictInsert_map_fst f models []
    simpa [distinctKeys] using h
  · rw [foldl_dictInsert_map_fst f models []]
    exact nodup_foldl_insertKey (models.map ModelRef.uuid) _ List.nodup_nil
  · intro u
    rw [foldl_dictInsert_map_fst f models []]
    simpa using mem_foldl_insertKey (models.map ModelRef.uuid) [] u
  · have hfst := foldl_dictInsert_map_fst f models []
    have hlt := length_foldl_insertKey_lt (models.map ModelRef.uuid) [] (Or.inl hdup)
    have hlen : (models.foldl (fun a m => dictInsert a m.uuid (f m)) []).length =
        ((models.map ModelRef.uuid).foldl insertKey []).length := by
      have := congrArg List.length hfst
      simpa using this
    rw [hlen]
    simpa using hlt
  · intro u m hm
    have h := lookup_foldl_lastOccur f models [] u
    rw [hm] at h
    exact h

/-- C10 witness: a batch with uuid "a" occurring twice (projections 1 then
2) yields a two-entry mapping whose value under "a" is the boolean of the
last occurrence, and which is shorter than the three-model input. -/
theorem validate_models_duplicate_uuids_witness :
    (validate_models cDup msDup).1 = .ok [("a", false), ("b", true)] ∧
    ([("a", false), ("b", true)] : List (String × Bool)).length < msDup.length ∧
    lookup [("a", false), ("b", true)] "a" = some false := by
  have h := validate_models_duplicate_uuids cDup msDup
    (fun m => decide (m.revenue_projections = some 1))
    (by decide)
    (by
      intro m hm
      simp [msDup] at hm
      rcases hm with rfl | rfl | rfl <;> rfl)
  rcases h with ⟨mp, h1, _, _, _, h5, h6⟩
  have hconc : (validate_models cDup msDup).1 = .ok [("a", false), ("b", true)] := rfl
  rw [hconc] at h1
  injection h1 with h1'
  refine ⟨hconc, ?_, ?_⟩
  · rw [← h1'] at h5
    exact h5
  · have hlast : lastOccur "a" msDup =
        some { uuid := "a", market_segment := none, revenue_projections := some 2 } := rfl
    have hval := h6 "a" _ hlast
    rw [← h1'] at hval
    simpa using hval

end ABMIF
